import Mathlib

/-!
# Shallow embedding of the malleable-MPI job scheduler

Embedding of `src/pkg/controller/mpi_job_controller.go` (the admission,
placement, expansion and shrink controller) and of the rescale-client CLI
(`src/unnamed/part_000`, a C program).

Modelling conventions:
* Job keys (`namespace/name` strings in Go) are opaque identifiers with
  decidable equality; we model them as `Nat`.
* Go `int` / `int32` counters are modelled as `Int` (the values involved are
  tiny, far from any 32/64-bit boundary, so wrap-around is irrelevant).
* Go maps `map[string]T` are modelled as `Key → Option T`; a read through the
  Go zero-value default (`m[k]` with no `ok` check) is `(m k).getD 0`.
* The cluster object store is modelled as converged: pods listed by the pod
  lister are the pods the controller created (each in Running phase and Ready),
  the config-map read back equals the one just written, and object writes
  succeed.  The rescale RPC outcome is an explicit oracle parameter.
* Worker pods of a job are a list of pod indices (`pods : Key → List Nat`).
-/

namespace MpiOp

/-- Opaque job key (`namespace+"/"+name` in `getJobKey`). -/
abbrev Key := Nat

/-- `jobStatus` values: the string constants `created`, `queued`, `running`,
`completed` of the Go source. -/
inductive Status where
  | created
  | queued
  | running
  | completed
deriving DecidableEq, Repr

/-- `deferredAction` values: the string constants `expand` / `noop`. -/
inductive Action where
  | expand
  | noop
deriving DecidableEq, Repr

/-- `kubeflow.CleanPodPolicy`: `All`, `Running` or `None`. -/
inductive CleanPodPolicy where
  | all
  | runningPods
  | nonePolicy
deriving DecidableEq, Repr

/-- `isCleanUpPods` (controller, lines 2310-2315). -/
def isCleanUpPods : CleanPodPolicy → Bool
  | .all => true
  | .runningPods => true
  | .nonePolicy => false

/-- The fields of an MPIJob custom resource that the scheduler reads:
`Spec.Priority`, `Worker.MinReplicas`, `Worker.MaxReplicas`,
`RunPolicy.CleanPodPolicy`, `RunPolicy.Suspend`. -/
structure MPIJob where
  key : Key
  priority : Int
  minReplicas : Int
  maxReplicas : Int
  cleanPodPolicy : CleanPodPolicy
  suspend : Bool
deriving DecidableEq, Repr

instance : Inhabited MPIJob := ⟨⟨0, 0, 0, 0, .all, false⟩⟩

/-- An `Item` of the Go `PriorityQueue`: the MPIJob value together with the
priority recorded at push time (`int(*mpiJob.Spec.Priority)`). -/
structure Item where
  job : MPIJob
  priority : Int
deriving DecidableEq, Repr

instance : Inhabited Item := ⟨⟨default, 0⟩⟩

/-- The comparator `compare(a, b) = cmp.Compare(a.priority, b.priority)`,
an ascending order on the priority value (`Less` uses
`pq[i].priority < pq[j].priority`). -/
def itemLe (a b : Item) : Prop := a.priority ≤ b.priority

instance : DecidableRel itemLe := fun a b => inferInstanceAs (Decidable (a.priority ≤ b.priority))

/-- `PriorityQueue.Push`: append the item and re-sort ascending by priority
(`slices.SortFunc(*pq, compare)`). -/
def pqPush (pq : List Item) (it : Item) : List Item :=
  List.insertionSort itemLe (pq ++ [it])

/-- `PriorityQueue.Pop`: takes `old[n-1]`, the LAST element of the slice
(the queue is kept ascending-sorted by `Push`/`update`). -/
def pqPop (pq : List Item) : Option Item :=
  pq.getLast?

/-- The rest of the queue after `Pop` (`*pq = old[0 : n-1]`). -/
def pqPopRest (pq : List Item) : List Item :=
  pq.dropLast

/-- Removal of a job key from a queue, as done in the completion-cleanup loop
(controller, lines 810-814).  The Go loop mutates the slice while ranging over
it; under the controller invariant that a key appears at most once, its effect
is to drop the (unique) occurrence, which `filter` reproduces. -/
def pqRemoveByKey (pq : List Item) (k : Key) : List Item :=
  pq.filter (fun it => it.job.key ≠ k)

/-! ## Rescale client (`src/unnamed/part_000`) -/

/-- The bitmap the client builds: for expansion (`NEWNPROCS > OLDNPROCS`) the
loop writes `bitmap[i] = 1` for every `i < OLDNPROCS`; for shrink it writes `1`
for `i < NEWNPROCS` and `0` for the remaining ranks. -/
def rescaleBitmap (oldProcs newProcs : Nat) : List Nat :=
  if newProcs > oldProcs then
    (List.range oldProcs).map (fun _ => 1)
  else
    (List.range oldProcs).map (fun i => if i < newProcs then 1 else 0)

/-- The 4 bytes of `memcpy(&bitmap[OLDNPROCS], &NEWNPROCS, sizeof(int))` on the
little-endian targets the controller runs on. -/
def le32 (n : Nat) : List Nat :=
  [n % 256, n / 256 % 256, n / 2 ^ 16 % 256, n / 2 ^ 24 % 256]

/-- The full `set_bitmap` request body: `OLDNPROCS` bitmap bytes, the 4-byte
little-endian `NEWNPROCS`, and the trailing `bitmap[OLDNPROCS+sizeof(int)] = 0`
byte; `cmdLen = OLDNPROCS + sizeof(int) + sizeof(char)`. -/
def rescaleMessage (oldProcs newProcs : Nat) : List Nat :=
  rescaleBitmap oldProcs newProcs ++ le32 newProcs ++ [0]

/-- Outcome of one run of the `rescale_client` CLI: what it printed, and the
message it sent to the launcher (if any). -/
structure ClientRun where
  output : String
  sent : Option (List Nat)
deriving DecidableEq, Repr

/-- `main` of the rescale client.  `connectOk`, `sendOk`, `recvOk` are the
outcomes of `CcsConnect`, `CcsSendRequest` and `CcsRecvResponse`.  With
`NEWNPROCS == OLDNPROCS` the program prints `0` and exits before connecting;
any transport failure prints `0`; otherwise it prints `1`. -/
def rescaleClient (oldProcs newProcs : Nat) (connectOk sendOk recvOk : Bool) : ClientRun :=
  if newProcs = oldProcs then
    ⟨"0", none⟩
  else if ¬connectOk then
    ⟨"0", none⟩
  else if ¬sendOk then
    ⟨"0", some (rescaleMessage oldProcs newProcs)⟩
  else if ¬recvOk then
    ⟨"0", some (rescaleMessage oldProcs newProcs)⟩
  else
    ⟨"1", some (rescaleMessage oldProcs newProcs)⟩

/-- `signalRescale` (controller, lines 666-679): runs the CLI and returns an
error when the combined output is the string `"0"`, or when the process itself
errored; otherwise `nil`.  `true` means "no error". -/
def signalRescaleOk (out : String) (execErr : Bool) : Bool :=
  if out = "0" then false
  else if execErr then false
  else true

/-! ## Controller-owned state -/

/-- Delete/update of one key in a Go map modelled as a function. -/
def setk {α : Type} (m : Key → Option α) (k : Key) (v : Option α) : Key → Option α :=
  fun k' => if k' = k then v else m k'

@[simp] theorem setk_same {α : Type} (m : Key → Option α) (k : Key) (v : Option α) :
    setk m k v k = v := by
  simp [setk]

@[simp] theorem setk_other {α : Type} (m : Key → Option α) (k k' : Key) (v : Option α)
    (h : k' ≠ k) : setk m k v k' = m k' := by
  simp [setk, h]

/-- Hostfile/`discover_hosts.sh` content of a job's ConfigMap.  The rendered
text is a deterministic pure function of the desired replica count
(`c.workerReplicas`, which reads `latestReplicas`) and of the running worker
pod set; we model the content by the data it is rendered from. -/
abbrev HF := Int × List Nat

/-- The controller-owned maps, queues and the slot ledger
(fields of `MPIJobController`). -/
structure CtrlState where
  latestReplicas : Key → Option Int
  configMaps : Key → Option HF
  jobStatus : Key → Option Status
  deferredAction : Key → Option Action
  oldExpandReplicas : Key → Option Int
  runningJobs : List Item
  queuedJobs : List Item
  freeSlots : Int
  /-- keys added to the rate-limited work queue (`c.queue.AddRateLimited`). -/
  workQueue : List Key

/-- What the controller can observe of the launcher `batchv1.Job` through the
job lister and `jobPods`: whether the Job has finished
(`isJobFinished`), and whether its pod is in Running phase. -/
structure LauncherObs where
  finished : Bool
  podRunning : Bool
deriving DecidableEq, Repr

/-- Controller state plus the (converged) cluster objects it acts on.
`pods k` is the list of indices of existing worker pods of job `k`; every pod
is modelled as being in Running phase and Ready (`countReadyWorkerPods` counts
all of them). -/
structure World where
  ctrl : CtrlState
  pods : Key → List Nat
  launcher : Key → Option LauncherObs
  configMapData : Key → Option HF

/-- Initial controller state: empty maps and queues,
`freeSlots = 10` (the hard-coded pool size, marked FIXME in the source). -/
def initWorld : World :=
  { ctrl :=
    { latestReplicas := fun _ => none
      configMaps := fun _ => none
      jobStatus := fun _ => none
      deferredAction := fun _ => none
      oldExpandReplicas := fun _ => none
      runningJobs := []
      queuedJobs := []
      freeSlots := 10
      workQueue := [] }
    pods := fun _ => []
    launcher := fun _ => none
    configMapData := fun _ => none }

/-- `len(getRunningWorkerPods(job))`: all modelled pods are Running. -/
def runningPodCount (w : World) (k : Key) : Int :=
  (w.pods k).length

/-! ## `calculateWorkerReplicas` (controller, lines 1428-1520)

The rescale RPC outcome is the oracle `rescaleOk : Key → Bool` (whether
`sendRescaleSignal` to that job's launcher returns nil).  `pods k` is the
running-worker-pod count the pod lister reports for job `k`. -/

/-- Dry-run preemption pass (lines 1441-1459).  The Go loop walks `index` from
`len(runningJobs)-1` downwards; we encode the cursor as `idx : Nat` with
Go `index = idx - 1`, so `idx = 0` is `index < 0`.  Each iteration reads
`it := runningJobs[index]`, decrements `index`, stops at the first item with
`it.priority > J.priority`, and otherwise accumulates the workers the victim
could shed while staying at `MinReplicas`. -/
def dryRunLoop (pods : Key → Int) (jPriority : Int) (rj : List Item) :
    Nat → Int → Int
  | 0, need => need
  | idx + 1, need =>
    if need = 0 then need
    else
      let it := rj.getD idx default
      if it.job.priority > jPriority then need
      else
        let podCount := pods it.job.key
        let jobMinReplicas := it.job.minReplicas
        if podCount > jobMinReplicas then
          let newPodCount := max jobMinReplicas (podCount - need)
          dryRunLoop pods jPriority rj idx (need - (podCount - newPodCount))
        else
          dryRunLoop pods jPriority rj idx need

/-- State threaded through the commit pass: the controller state and the
remaining `numWorkersToFree`. -/
structure CommitSt where
  s : CtrlState
  need : Int

/-- Commit preemption pass (lines 1469-1508).  Faithful to the source, the
cursor is NOT decremented when the candidate's `jobStatus` is not `running`
(the `continue` at line 1483 precedes `index -= 1`), so the loop can spin
forever; `fuel` bounds the modelled iterations and `none` means the bound was
hit without the loop terminating.  On a failed rescale the `continue` at line
1499 skips every mutation, with the cursor already decremented. -/
def commitLoop (rescaleOk : Key → Bool) (pods : Key → Int) (jPriority : Int)
    (rj : List Item) : Nat → Nat → CommitSt → Option CommitSt
  | 0, _, _ => none
  | fuel + 1, idx, st =>
    if st.need = 0 then some st
    else
      match idx with
      | 0 => some st
      | idx + 1 =>
        let it := rj.getD idx default
        if it.job.priority > jPriority then some st
        else if st.s.jobStatus it.job.key ≠ some .running then
          commitLoop rescaleOk pods jPriority rj fuel (idx + 1) st
        else
          let podCount := pods it.job.key
          let jobMinReplicas := it.job.minReplicas
          if podCount > jobMinReplicas then
            let newPodCount := max jobMinReplicas (podCount - st.need)
            if rescaleOk it.job.key then
              let s := st.s
              commitLoop rescaleOk pods jPriority rj fuel idx
                ⟨{ s with
                    latestReplicas := setk s.latestReplicas it.job.key (some newPodCount)
                    freeSlots := s.freeSlots + (podCount - newPodCount)
                    workQueue := s.workQueue ++ [it.job.key] },
                  st.need - (podCount - newPodCount)⟩
            else
              commitLoop rescaleOk pods jPriority rj fuel idx st
          else
            commitLoop rescaleOk pods jPriority rj fuel idx st

/-- Result of `calculateWorkerReplicas`: the replica count, or the
`jobQueuedError` (in which case the Go function returns `-1` and the caller
stores `-1` into `latestReplicas`). -/
inductive CalcResult where
  | ok (replicas : Int)
  | queuedErr
deriving DecidableEq, Repr

/-- `calculateWorkerReplicas` (lines 1428-1520).  `replicas :=
min(freeSlots - 1, MaxReplicas)`; if that reaches `MinReplicas` it is returned
with no state change.  Otherwise `numWorkersToFree := MinReplicas - freeSlots
+ 1` is pushed through the dry-run pass; a positive remainder queues the job.
Otherwise the commit pass re-runs the scan, issuing rescales and freeing
slots, and the job is admitted at `MinReplicas` when the remainder reaches
zero.  `none` = the commit pass span beyond `fuel` iterations. -/
def calculateWorkerReplicas (rescaleOk : Key → Bool) (pods : Key → Int) (fuel : Nat)
    (s : CtrlState) (j : MPIJob) : Option (CtrlState × CalcResult) :=
  let replicas := min (s.freeSlots - 1) j.maxReplicas
  if replicas < j.minReplicas then
    let need0 := j.minReplicas - s.freeSlots + 1
    let needAfterDry := dryRunLoop pods j.priority s.runningJobs s.runningJobs.length need0
    if needAfterDry > 0 then
      some (s, .queuedErr)
    else
      match commitLoop rescaleOk pods j.priority s.runningJobs fuel s.runningJobs.length
          ⟨s, need0⟩ with
      | none => none
      | some st =>
        if st.need > 0 then some (st.s, .queuedErr)
        else some (st.s, .ok j.minReplicas)
  else
    some (s, .ok replicas)

/-! ## Worker-pod reconciliation -/

/-- `addWorker` (lines 1364-1390): if the pod of that index does not exist it
is created and `freeSlots` is decremented by one; an existing pod is left
alone (creations are modelled as succeeding). -/
def addWorker (w : World) (k : Key) (i : Nat) : World :=
  if i ∈ w.pods k then w
  else
    { w with
      pods := fun k' => if k' = k then w.pods k ++ [i] else w.pods k'
      ctrl := { w.ctrl with freeSlots := w.ctrl.freeSlots - 1 } }

/-- The creation loop of `getOrCreateWorker`
(`for i := 0; i < int(latestReplicas); i++ { addWorker(i) }`). -/
def addWorkersUpTo (w : World) (k : Key) : Nat → World
  | 0 => w
  | n + 1 => addWorker (addWorkersUpTo w k n) k n

/-- Outcome of `getOrCreateWorker`: either the `jobQueuedError` (with the
state at that point) or the updated world and the worker pod list length
(the Go function returns the pods of indices `0 .. latestReplicas-1`). -/
inductive WorkerRes where
  | queuedErr (w : World)
  | ok (w : World) (workerCount : Nat)

/-- The shrink-path deletions of `getOrCreateWorker` (lines 1553-1569): delete
every worker pod whose `ReplicaIndexLabel` index is `≥ latestReplicas`.  No
slot is credited here (the preemption commit pass already credited them). -/
def deleteExcessPods (w : World) (k : Key) (latest : Int) : World :=
  { w with pods := fun k' => if k' = k then
      (w.pods k).filter (fun i => (i : Int) < latest) else w.pods k' }

/-- `getOrCreateWorker` (lines 1524-1580).  `latest` is the Go map read
`c.latestReplicas[key]` (zero-value default).  If the creation delta
`latest - len(podFullList)` exceeds `freeSlots` the job is queued.  Pods with
index `≥ latest` are deleted — with NO release of slots here (the commit pass
of preemption already credited them).  Then pods `0 .. latest-1` are created
as needed, decrementing `freeSlots` per creation. -/
def getOrCreateWorker (w : World) (k : Key) : WorkerRes :=
  let latest := (w.ctrl.latestReplicas k).getD 0
  let podFullList := w.pods k
  if latest - podFullList.length > w.ctrl.freeSlots then
    .queuedErr w
  else
    let w1 :=
      if podFullList.length > latest then deleteExcessPods w k latest
      else w
    let w2 := addWorkersUpTo w1 k latest.toNat
    .ok w2 latest.toNat

/-- `removeWorker` (lines 1590-1623): delete the worker pod of the given index
if it exists (every modelled pod is Running, so the `CleanPodPolicyRunning`
keep-branch never fires), crediting one slot back. -/
def removeWorker (w : World) (k : Key) (i : Nat) : World :=
  if i ∈ w.pods k then
    { w with
      pods := fun k' => if k' = k then (w.pods k).filter (fun j => j ≠ i) else w.pods k'
      ctrl := { w.ctrl with freeSlots := w.ctrl.freeSlots + 1 } }
  else w

/-- `deleteWorkerPods` (lines 1625-1636): `removeWorker` for every index
`0 .. MaxReplicas-1`. -/
def deleteWorkerPods (w : World) (j : MPIJob) : World :=
  (List.range j.maxReplicas.toNat).foldl (fun acc i => removeWorker acc j.key i) w

/-- `cleanUpWorkerPods` (lines 1080-1092): delete the worker pods (the
PodGroup/status bookkeeping has no controller-owned state). -/
def cleanUpWorkerPods (w : World) (j : MPIJob) : World :=
  deleteWorkerPods w j

/-- `enqueueJobInternal` (lines 1392-1402): an early return if the key is
already in `queuedJobs` (skipping the status write too); otherwise push into
`queuedJobs` and set `jobStatus := queued`. -/
def enqueueJobInternal (s : CtrlState) (j : MPIJob) : CtrlState :=
  if s.queuedJobs.any (fun it => it.job.key = j.key) then s
  else
    { s with
      queuedJobs := pqPush s.queuedJobs ⟨j, j.priority⟩
      jobStatus := setk s.jobStatus j.key (some .queued) }

/-! ## Rebalance on completion (controller, lines 832-886) -/

/-- Locals of the expansion loop: the controller state under mutation, the two
cursors and the local free-worker budget (`numFreeWorkers`). -/
structure RebalanceSt where
  s : CtrlState
  idxRunning : Nat
  idxQueued : Nat
  numFreeWorkers : Int

/-- One iteration of the expansion loop.  `bumped = some (k, newVal)` records
that the budget-consuming branch ran for job `k`, whose `latestReplicas` was
set to `newVal` (lines 873-882). -/
inductive RebalanceOut where
  | halt (st : RebalanceSt)
  | stuck
  | next (st : RebalanceSt) (bumped : Option (Key × Int))

/-- The cursor-priority reads of lines 843-855: the priority of the cursor's
item (`*it.mpiJob.Spec.Priority`), or the `-1` sentinel when the cursor is
past the end of the queue. -/
def headPriority (l : List Item) (i : Nat) : Int :=
  match l[i]? with
  | some it => it.job.priority
  | none => -1

/-- The body of the expansion loop (lines 839-884).  Cursor priorities use the
`-1` sentinel for an exhausted queue.  When `runPriority < queuePriority` the
QUEUED head is chosen, else the RUNNING head.  The chosen job's
`latestReplicas` is set to `min(MaxReplicas, latestReplicas + numFreeWorkers)`
(a Go zero-value map read); if that lands below `MinReplicas` the write is kept
but the budget is not charged; otherwise the budget is reduced by the ENTIRE
new `latestReplicas` value (line 879).  `stuck` marks the paths where Go would
dereference the stale/nil `itQueued`/`itRunning` pointer (the chosen cursor out
of range, reachable only with priority values `≤ -1`). -/
def rebalanceStep (pods : Key → Int) (st : RebalanceSt) : RebalanceOut :=
  let run := st.s.runningJobs
  let queued := st.s.queuedJobs
  if st.numFreeWorkers = 0 ∨ (st.idxRunning = run.length ∧ st.idxQueued = queued.length) then
    .halt st
  else
    let runPriority : Int := headPriority run st.idxRunning
    let queuePriority : Int := headPriority queued st.idxQueued
    let pick : Option Item × RebalanceSt :=
      if runPriority < queuePriority then
        (queued[st.idxQueued]?, { st with idxQueued := st.idxQueued + 1 })
      else
        (run[st.idxRunning]?, { st with idxRunning := st.idxRunning + 1 })
    match pick with
    | (none, _) => .stuck
    | (some it, st1) =>
      let podCount := pods it.job.key
      if podCount < it.job.maxReplicas then
        let newVal := min it.job.maxReplicas
          ((st1.s.latestReplicas it.job.key).getD 0 + st1.numFreeWorkers)
        let s1 := { st1.s with
          latestReplicas := setk st1.s.latestReplicas it.job.key (some newVal) }
        if newVal < it.job.minReplicas then
          .next { st1 with s := s1 } none
        else
          .next { st1 with
              s := { s1 with
                oldExpandReplicas := setk s1.oldExpandReplicas it.job.key (some podCount)
                workQueue := s1.workQueue ++ [it.job.key] }
              numFreeWorkers := st1.numFreeWorkers - newVal }
            (some (it.job.key, newVal))
      else
        .next st1 none

/-- The expansion loop: iterate `rebalanceStep` until it halts; `none` when the
iteration bound is hit or a stale-pointer path is taken. -/
def rebalanceLoop (pods : Key → Int) : Nat → RebalanceSt → Option RebalanceSt
  | 0, _ => none
  | fuel + 1, st =>
    match rebalanceStep pods st with
    | .halt st' => some st'
    | .stuck => none
    | .next st' _ => rebalanceLoop pods fuel st'

/-! ## Completion cleanup (controller, lines 799-891) -/

/-- The unconditional part of completion cleanup (lines 805-814): delete the
key from `deferredAction`, `latestReplicas`, `jobStatus` and `configMaps`, and
remove it from `runningJobs`. -/
def completionDelete (w : World) (j : MPIJob) : World :=
  { w with ctrl := { w.ctrl with
    deferredAction := setk w.ctrl.deferredAction j.key none
    latestReplicas := setk w.ctrl.latestReplicas j.key none
    jobStatus := setk w.ctrl.jobStatus j.key none
    configMaps := setk w.ctrl.configMaps j.key none
    runningJobs := pqRemoveByKey w.ctrl.runningJobs j.key } }

/-- The completed-job branch of `syncHandler`: entered when
`isFinished(status) && CompletionTime != nil`.  If the key is no longer in
`jobStatus` it returns with no change at all.  Otherwise it deletes the key
from the four maps and from `runningJobs`, and — only under `isCleanUpPods` —
deletes the worker pods (one slot back each), credits one more slot for the
launcher, and runs the expansion loop over the freed budget, finally dropping
the consumed `queuedJobs` prefix. -/
def completionSync (fuel : Nat) (w : World) (j : MPIJob) : Option World :=
  if w.ctrl.jobStatus j.key = none then some w
  else
    let w1 := completionDelete w j
    if isCleanUpPods j.cleanPodPolicy then
      let w2 := cleanUpWorkerPods w1 j
      let w3 := { w2 with ctrl := { w2.ctrl with freeSlots := w2.ctrl.freeSlots + 1 } }
      match rebalanceLoop (fun k => runningPodCount w3 k) fuel
          ⟨w3.ctrl, 0, 0, w3.ctrl.freeSlots⟩ with
      | none => none
      | some st =>
        some { w3 with ctrl :=
          { st.s with queuedJobs := st.s.queuedJobs.drop st.idxQueued } }
    else
      some w1

/-! ## `checkJobQueue` (controller, lines 1404-1426) -/

/-- `checkJobQueue`: walk `queuedJobs` with an index; every candidate's
`latestReplicas` is overwritten with the `calculateWorkerReplicas` result
(`-1` when it errors); errors advance the index, successes enqueue the key
into the work queue and remove the entry.  `fuel` bounds the iterations. -/
def checkJobQueueLoop (rescaleOk : Key → Bool) (pods : Key → Int) (calcFuel : Nat) :
    Nat → Nat → CtrlState → Option CtrlState
  | 0, _, _ => none
  | fuel + 1, index, s =>
    if index = s.queuedJobs.length then some s
    else
      match s.queuedJobs[index]? with
      | none => some s
      | some it =>
        match calculateWorkerReplicas rescaleOk pods calcFuel s it.job with
        | none => none
        | some (s', .queuedErr) =>
          checkJobQueueLoop rescaleOk pods calcFuel fuel (index + 1)
            { s' with latestReplicas := setk s'.latestReplicas it.job.key (some (-1)) }
        | some (s', .ok r) =>
          checkJobQueueLoop rescaleOk pods calcFuel fuel index
            { s' with
              latestReplicas := setk s'.latestReplicas it.job.key (some r)
              workQueue := s'.workQueue ++ [it.job.key]
              queuedJobs := s'.queuedJobs.eraseIdx index }

/-! ## `syncHandler`, non-completion part (controller, lines 893-1077) -/

/-- The launcher section (lines 1024-1048), reached by every path of the
`!done` branch that did not return early.  `workerCount` is `len(worker)`
(the pod list `getOrCreateWorker` returned, or 0 for a suspended job whose
`worker` slice stayed nil).  If no launcher Job exists and the persisted
hostfile matches `configMaps[key]` and the status is `created` (all modelled
pods being Ready), the launcher is created, the status becomes `running` and
the job is pushed onto `runningJobs`.  If a launcher exists and its pod is
Running, the status is set to `running` and `checkJobQueue` runs. -/
def launcherBlock (rescaleOk : Key → Bool) (fuel : Nat) (w : World) (j : MPIJob) :
    Option World :=
  match w.launcher j.key with
  | none =>
    if (∃ hf, w.configMapData j.key = some hf ∧ w.ctrl.configMaps j.key = some hf) ∧
        w.ctrl.jobStatus j.key = some .created then
      some { w with
        launcher := fun k => if k = j.key then some ⟨false, false⟩ else w.launcher k
        ctrl := { w.ctrl with
          jobStatus := setk w.ctrl.jobStatus j.key (some .running)
          runningJobs := pqPush w.ctrl.runningJobs ⟨j, j.priority⟩ } }
    else
      some w
  | some l =>
    if l.podRunning then
      match checkJobQueueLoop rescaleOk (fun k => runningPodCount w k) fuel fuel 0
          { w.ctrl with jobStatus := setk w.ctrl.jobStatus j.key (some .running) } with
      | none => none
      | some s' => some { w with ctrl := s' }
    else
      some w

/-- The suspended-job pod cleanup (line 1064): delete the worker pods when the
CR is suspended.  The launcher suspend-flag alignment (lines 1051-1061)
touches only the cluster Job object, which we do not track. -/
def suspendCleanup (w : World) (j : MPIJob) : World :=
  if j.suspend then cleanUpWorkerPods w j else w

/-- The tail of the not-done, not-suspended branch after admission (lines
969-1021): reconcile worker pods (a `jobQueuedError` re-queues the job and
returns), write the rendered hostfile into the ConfigMap and remember it in
`configMaps`, record a deferred expand when one was detected, and — all
modelled pods being Ready and the persisted text matching — fire the deferred
expand rescale: on success `deferredAction` becomes `noop`; on failure the
pass returns with every mutation so far kept.  Then the launcher section and
the suspended cleanup run. -/
def syncWorkers (rescaleOk : Key → Bool) (fuel : Nat) (w : World) (j : MPIJob)
    (isExpand : Bool) : Option World :=
  match getOrCreateWorker w j.key with
  | .queuedErr w' => some { w' with ctrl := enqueueJobInternal w'.ctrl j }
  | .ok w1 _ =>
    let rendered : HF := ((w1.ctrl.latestReplicas j.key).getD 0, w1.pods j.key)
    let w2 := { w1 with
      configMapData := setk w1.configMapData j.key (some rendered)
      ctrl := { w1.ctrl with configMaps := setk w1.ctrl.configMaps j.key (some rendered) } }
    let w3 :=
      if isExpand then
        { w2 with ctrl := { w2.ctrl with
          deferredAction := setk w2.ctrl.deferredAction j.key (some .expand) } }
      else w2
    let action := (w3.ctrl.deferredAction j.key).getD .noop
    if action = .expand then
      if rescaleOk j.key then
        let w4 := { w3 with ctrl := { w3.ctrl with
          deferredAction := setk w3.ctrl.deferredAction j.key (some .noop) } }
        match launcherBlock rescaleOk fuel w4 j with
        | none => none
        | some w5 => some (suspendCleanup w5 j)
      else
        some w3
    else
      match launcherBlock rescaleOk fuel w3 j with
      | none => none
      | some w5 => some (suspendCleanup w5 j)

/-- One reconcile pass of `syncHandler` for the job `j`, excluding the paths
with no controller-state effect (missing/terminating CR, validation failure).
`finished` is `isFinished(mpiJob.Status) && CompletionTime != nil`.  The
rescale-RPC outcome is the oracle `rescaleOk`; `none` means a modelling bound
(loop fuel / stale-pointer path) was hit, never a real return. -/
def sync (rescaleOk : Key → Bool) (fuel : Nat) (w : World) (j : MPIJob)
    (finished : Bool) : Option World :=
  if finished then completionSync fuel w j
  else
    let key := j.key
    let done := ((w.launcher key).map (·.finished)).getD false
    if done then
      some (suspendCleanup w j)
    else if j.suspend then
      match launcherBlock rescaleOk fuel w j with
      | none => none
      | some w' => some (suspendCleanup w' j)
    else
      let lastReplicas := (w.ctrl.latestReplicas key).getD (-1)
      let isExpand : Bool :=
        decide (w.ctrl.jobStatus key = some .running ∧
          ((w.pods key).length : Int) < lastReplicas)
      match w.ctrl.jobStatus key with
      | none =>
        match calculateWorkerReplicas rescaleOk (fun k => runningPodCount w k) fuel
            w.ctrl j with
        | none => none
        | some (s', .queuedErr) =>
          let s2 := { s' with latestReplicas := setk s'.latestReplicas key (some (-1)) }
          some { w with ctrl := enqueueJobInternal s2 j }
        | some (s', .ok r) =>
          syncWorkers rescaleOk fuel
            { w with ctrl := { s' with
              latestReplicas := setk s'.latestReplicas key (some r)
              jobStatus := setk s'.jobStatus key (some .created)
              freeSlots := s'.freeSlots - 1 } }
            j isExpand
      | some st =>
        if st = .queued ∧ (w.ctrl.latestReplicas key).getD 0 > 0 then
          syncWorkers rescaleOk fuel
            { w with ctrl := { w.ctrl with
              jobStatus := setk w.ctrl.jobStatus key (some .created)
              freeSlots := w.ctrl.freeSlots - 1 } }
            j isExpand
        else
          syncWorkers rescaleOk fuel w j isExpand

/-! ## Claim C9: the rescale wire message -/

theorem rescaleBitmap_length (o n : Nat) : (rescaleBitmap o n).length = o := by
  unfold rescaleBitmap; split <;> simp

/-- C9: for every `oldProcs > 0` and `newProcs ≠ oldProcs`, the rescale client
builds a message of exactly `oldProcs + 5` bytes: `oldProcs` bitmap bytes —
all 1 when `newProcs > oldProcs`, and exactly the first `newProcs` bytes 1
with the remainder 0 when `newProcs < oldProcs` — followed by `newProcs` as a
4-byte little-endian integer, followed by a single NUL byte. -/
theorem rescale_message_layout (oldP newP : Nat) (h0 : 0 < oldP) (hne : newP ≠ oldP) :
    (rescaleMessage oldP newP).length = oldP + 5 ∧
    (∀ i, i < oldP → (rescaleMessage oldP newP).getD i 2 =
      if newP > oldP then 1 else if i < newP then 1 else 0) ∧
    (rescaleMessage oldP newP).getD oldP 2 = newP % 256 ∧
    (rescaleMessage oldP newP).getD (oldP + 1) 2 = newP / 256 % 256 ∧
    (rescaleMessage oldP newP).getD (oldP + 2) 2 = newP / 2 ^ 16 % 256 ∧
    (rescaleMessage oldP newP).getD (oldP + 3) 2 = newP / 2 ^ 24 % 256 ∧
    (rescaleMessage oldP newP).getD (oldP + 4) 2 = 0 := by
  have hblen : (rescaleBitmap oldP newP).length = oldP := rescaleBitmap_length oldP newP
  have htail : ∀ j, (rescaleMessage oldP newP).getD (oldP + j) 2 =
      (le32 newP ++ [0]).getD j 2 := by
    intro j
    have : (rescaleMessage oldP newP) = rescaleBitmap oldP newP ++ (le32 newP ++ [0]) := by
      simp [rescaleMessage]
    rw [this, List.getD_append_right]
    · rw [hblen]; simp
    · omega
  refine ⟨?_, ?_, ?_, ?_, ?_, ?_, ?_⟩
  · simp [rescaleMessage, hblen, le32]
  · intro i hi
    have hi' : i < (rescaleBitmap oldP newP).length := by rw [hblen]; exact hi
    have : (rescaleMessage oldP newP) = rescaleBitmap oldP newP ++ (le32 newP ++ [0]) := by
      simp [rescaleMessage]
    rw [this, List.getD_append _ _ _ _ hi']
    unfold rescaleBitmap
    split
    · simp [List.getD, hi]
    · simp [List.getD, hi]
  · have := htail 0; simpa [le32] using this
  · have := htail 1; simpa [le32] using this
  · have := htail 2; simpa [le32] using this
  · have := htail 3; simpa [le32] using this
  · have := htail 4; simpa [le32] using this

/-- Witness for C9 at `oldProcs = 5`, `newProcs = 3` (a shrink). -/
theorem rescale_message_layout_witness :
    0 < 5 ∧ (3 : Nat) ≠ 5 ∧
    ((rescaleMessage 5 3).length = 5 + 5 ∧
    (∀ i, i < 5 → (rescaleMessage 5 3).getD i 2 =
      if 3 > 5 then 1 else if i < 3 then 1 else 0) ∧
    (rescaleMessage 5 3).getD 5 2 = 3 % 256 ∧
    (rescaleMessage 5 3).getD (5 + 1) 2 = 3 / 256 % 256 ∧
    (rescaleMessage 5 3).getD (5 + 2) 2 = 3 / 2 ^ 16 % 256 ∧
    (rescaleMessage 5 3).getD (5 + 3) 2 = 3 / 2 ^ 24 % 256 ∧
    (rescaleMessage 5 3).getD (5 + 4) 2 = 0) :=
  ⟨by decide, by decide, rescale_message_layout 5 3 (by decide) (by decide)⟩

/-! ## Claim C4: rescale with `newProcs == oldProcs` -/

/-- C4 counterexample: at `oldProcs = newProcs = 3` the CLI prints `"0"`
without sending anything, and `signalRescale` treats the output `"0"` as an
ERROR — the controller DOES report an error, so the rescale is not "a no-op
that returns ok to the caller". -/
theorem rescale_noop_cex :
    rescaleClient 3 3 true true true = ⟨"0", none⟩ ∧
    signalRescaleOk "0" false = false := by
  constructor
  · rfl
  · rfl

/-- C4 amended: a rescale request with `newProcs == oldProcs` sends nothing to
the launcher (it is a no-op on the process group) and the CLI prints `"0"`,
but `signalRescale` then returns an ERROR to the caller, not ok. -/
theorem rescale_noop_reports_error (oldP : Nat) (cOk sOk rOk execErr : Bool) :
    rescaleClient oldP oldP cOk sOk rOk = ⟨"0", none⟩ ∧
    signalRescaleOk (rescaleClient oldP oldP cOk sOk rOk).output execErr = false := by
  constructor
  · simp [rescaleClient]
  · simp [rescaleClient, signalRescaleOk]

/-! ## Claim C3: what `Pop` returns -/

/-- A job of priority value 1. -/
def pqDemoJobA : MPIJob := ⟨0, 1, 1, 1, .all, false⟩

/-- A job of priority value 2. -/
def pqDemoJobB : MPIJob := ⟨1, 2, 1, 1, .all, false⟩

/-- A queue holding priorities 1 and 2, built by two pushes. -/
def pqDemoQueue : List Item := pqPush (pqPush [] ⟨pqDemoJobA, 1⟩) ⟨pqDemoJobB, 2⟩

/-- C3 counterexample: on the queue holding priorities {1, 2}, `Pop` returns
the priority-2 entry (`old[n-1]`, the tail of the ascending-sorted slice), not
the priority-1 entry the claim promises ("lowest priority value first"). -/
theorem pqPop_not_min_cex :
    pqPop pqDemoQueue = some ⟨pqDemoJobB, 2⟩ ∧
    ⟨pqDemoJobA, 1⟩ ∈ pqDemoQueue ∧ (1 : Int) < 2 := by
  refine ⟨by decide, by decide, by decide⟩

/-- C3 amended: for every non-empty priority queue (kept ascending-sorted by
`Push`/`update`), `Pop` returns the entry with the HIGHEST priority value
currently in the queue — i.e. the entry with the lowest scheduling priority
under the spec's "lower value = higher scheduling priority" orientation. -/
theorem pqPop_max (pq : List Item) (hs : List.Sorted itemLe pq) (hne : pq ≠ []) :
    ∃ it, pqPop pq = some it ∧ ∀ x ∈ pq, x.priority ≤ it.priority := by
  induction pq with
  | nil => exact absurd rfl hne
  | cons a l ih =>
    cases l with
    | nil =>
      refine ⟨a, by simp [pqPop], ?_⟩
      intro x hx
      simp only [List.mem_singleton] at hx
      simp [hx]
    | cons b m =>
      have hs' : List.Sorted itemLe (b :: m) := hs.of_cons
      obtain ⟨it, hpop, hmax⟩ := ih hs' (by simp)
      refine ⟨it, ?_, ?_⟩
      · simpa [pqPop, List.getLast?_cons_cons] using hpop
      · intro x hx
        rcases List.mem_cons.mp hx with hxa | hxl
        · subst hxa
          have hmem : it ∈ b :: m := by
            have : it ∈ (b :: m).getLast? := by simp [pqPop] at hpop; simp [hpop]
            exact List.mem_of_mem_getLast? this
          have := (List.pairwise_cons.mp hs).1 it hmem
          exact this
        · exact hmax x hxl

/-- Witness for C3's amended statement at the concrete sorted queue
of priorities {1, 2}. -/
theorem pqPop_max_witness :
    List.Sorted itemLe [Item.mk pqDemoJobA 1, Item.mk pqDemoJobB 2] ∧
    ∃ it, pqPop [Item.mk pqDemoJobA 1, Item.mk pqDemoJobB 2] = some it ∧
      ∀ x ∈ [Item.mk pqDemoJobA 1, Item.mk pqDemoJobB 2], x.priority ≤ it.priority :=
  ⟨by constructor <;> simp [itemLe],
    pqPop_max _ (by constructor <;> simp [itemLe]) (by simp)⟩

/-! ## Claim C5: a failed rescale during the commit pass -/

/-- C5: in the commit pass of admission preemption, when the victim
`runningJobs[idx]` passes the priority and status checks and has pods to shed
but its rescale signal FAILS, the iteration leaves the whole commit state
(`latestReplicas`, `freeSlots`, the remaining `numWorkersToFree`, the work
queue) unchanged and continues with the next victim: the step equals the loop
restarted at cursor `idx - 1` with the same state. -/
theorem commit_rescale_failure_no_change
    (rescaleOk : Key → Bool) (pods : Key → Int) (jP : Int) (rj : List Item)
    (fuel idx : Nat) (st : CommitSt)
    (hneed : st.need ≠ 0)
    (hprio : ¬ (rj.getD idx default).job.priority > jP)
    (hrun : st.s.jobStatus (rj.getD idx default).job.key = some .running)
    (hpods : pods (rj.getD idx default).job.key > (rj.getD idx default).job.minReplicas)
    (hfail : rescaleOk (rj.getD idx default).job.key = false) :
    commitLoop rescaleOk pods jP rj (fuel + 1) (idx + 1) st
      = commitLoop rescaleOk pods jP rj fuel idx st := by
  rw [commitLoop]
  simp only [List.getD_eq_getElem?_getD] at hprio hrun hpods hfail
  simp [hneed, hprio, hrun, hpods, hfail]

/-- The victim job for the C5 witness: priority 0, `MinReplicas = 2`. -/
def c5victim : MPIJob := ⟨20, 0, 2, 6, .all, false⟩

/-- Controller state for the C5 witness: the victim is running with 5 pods. -/
def c5state : CtrlState :=
  { latestReplicas := setk (fun _ => none) 20 (some 5)
    configMaps := fun _ => none
    jobStatus := setk (fun _ => none) 20 (some .running)
    deferredAction := fun _ => none
    oldExpandReplicas := fun _ => none
    runningJobs := [⟨c5victim, 0⟩]
    queuedJobs := []
    freeSlots := 0
    workQueue := [] }

/-- Witness for C5 at a concrete state: victim priority 0 ≤ 0, running, 5 pods
above its minimum of 2, rescale oracle always failing. -/
theorem commit_rescale_failure_no_change_witness :
    (⟨c5state, 2⟩ : CommitSt).need ≠ 0 ∧
    ¬ (([⟨c5victim, 0⟩] : List Item).getD 0 default).job.priority > 0 ∧
    (⟨c5state, 2⟩ : CommitSt).s.jobStatus
      (([⟨c5victim, 0⟩] : List Item).getD 0 default).job.key = some .running ∧
    commitLoop (fun _ => false) (fun _ => 5) 0 [⟨c5victim, 0⟩] (3 + 1) (0 + 1) ⟨c5state, 2⟩
      = commitLoop (fun _ => false) (fun _ => 5) 0 [⟨c5victim, 0⟩] 3 0 ⟨c5state, 2⟩ :=
  ⟨by decide, by decide, by decide,
    commit_rescale_failure_no_change (fun _ => false) (fun _ => 5) 0 [⟨c5victim, 0⟩] 3 0
      ⟨c5state, 2⟩ (by decide) (by decide) (by decide) (by decide) (by decide)⟩

/-! ## Claim C10: termination of `calculateWorkerReplicas` -/

/-- The running job whose `jobStatus` is NOT `running` (it was re-queued by
`getOrCreateWorker` while staying in `runningJobs`): priority 3,
`MinReplicas = 2`, 4 running pods. -/
def c10victim : MPIJob := ⟨10, 3, 2, 8, .all, false⟩

/-- The new job being admitted: priority 5, `MinReplicas = 1`. -/
def c10job : MPIJob := ⟨11, 5, 1, 4, .all, false⟩

/-- Pod counts for the C10 state: the victim has 4 running worker pods. -/
def c10pods : Key → Int := fun k => if k = 10 then 4 else 0

/-- Controller state on which `calculateWorkerReplicas` never terminates: the
victim sits in `runningJobs` with `jobStatus = created`. -/
def c10state : CtrlState :=
  { latestReplicas := setk (fun _ => none) 10 (some 4)
    configMaps := fun _ => none
    jobStatus := setk (fun _ => none) 10 (some .created)
    deferredAction := fun _ => none
    oldExpandReplicas := fun _ => none
    runningJobs := [⟨c10victim, 3⟩]
    queuedJobs := []
    freeSlots := 0
    workQueue := [] }

theorem c10_commit_spins (fuel : Nat) :
    commitLoop (fun _ => true) c10pods 5 c10state.runningJobs fuel 1 ⟨c10state, 2⟩
      = none := by
  induction fuel with
  | zero => rfl
  | succ n ih =>
    show commitLoop (fun _ => true) c10pods 5 c10state.runningJobs n 1 ⟨c10state, 2⟩ = none
    exact ih

/-- C10: `calculateWorkerReplicas` does NOT terminate on every input.  On the
state `c10state` — a victim in `runningJobs` whose `jobStatus` is not
`running`, with enough shrinkable pods for the dry run to succeed — the commit
pass hits the `continue` at line 1483 BEFORE the cursor decrement at line 1485
and spins forever: for every iteration bound the modelled loop fails to
finish.  The dry-run pass decrements the cursor unconditionally, so the commit
pass's early `continue` is a slip. -/
theorem calc_commit_nonterminating (fuel : Nat) :
    calculateWorkerReplicas (fun _ => true) c10pods fuel c10state c10job = none := by
  have h := c10_commit_spins fuel
  show (match commitLoop (fun _ => true) c10pods 5 c10state.runningJobs fuel 1
      ⟨c10state, 2⟩ with
    | none => (none : Option (CtrlState × CalcResult))
    | some st =>
      if st.need > 0 then some (st.s, .queuedErr)
      else some (st.s, .ok c10job.minReplicas)) = none
  rw [h]

/-! ## Claim C1: which running jobs the preemption scan shrinks -/

/-- A running job of priority 3 with `MinReplicas = 2`, 4 running pods. -/
def c1victim : MPIJob := ⟨10, 3, 2, 8, .all, false⟩

/-- The arriving job of priority 5 with `MinReplicas = 1`. -/
def c1job : MPIJob := ⟨11, 5, 1, 4, .all, false⟩

/-- Pod counts for the C1 state. -/
def c1pods : Key → Int := fun k => if k = 10 then 4 else 0

/-- Controller state for C1: one running job (priority 3) holding 4 pods,
no free slots. -/
def c1state : CtrlState :=
  { latestReplicas := setk (fun _ => none) 10 (some 4)
    configMaps := fun _ => none
    jobStatus := setk (fun _ => none) 10 (some .running)
    deferredAction := fun _ => none
    oldExpandReplicas := fun _ => none
    runningJobs := [⟨c1victim, 3⟩]
    queuedJobs := []
    freeSlots := 0
    workQueue := [] }

/-- C1 counterexample: admitting the priority-5 job `c1job` SHRINKS the
running job of priority 3 ≤ 5 from 4 pods to its minimum 2 (its
`latestReplicas` drops from 4 to 2, two slots are freed, and the new job is
admitted) — the claim promised a job with `R.priority ≤ J.priority` is never
shrunk. -/
theorem preempt_le_priority_shrunk_cex :
    ((calculateWorkerReplicas (fun _ => true) c1pods 10 c1state c1job).map
      (fun p => (p.1.latestReplicas 10, p.1.freeSlots, p.2)))
      = some (some 2, 2, CalcResult.ok 1) ∧
    c1state.latestReplicas 10 = some 4 ∧
    c1victim.priority ≤ c1job.priority ∧
    c1state.runningJobs = [⟨c1victim, 3⟩] := by
  refine ⟨by decide, by decide, by decide, by decide⟩

theorem commitLoop_shrinks_only_le (rescaleOk : Key → Bool) (pods : Key → Int) (jP : Int)
    (rj : List Item) :
    ∀ (fuel idx : Nat) (st st' : CommitSt), idx ≤ rj.length →
      commitLoop rescaleOk pods jP rj fuel idx st = some st' →
      ∀ k, st'.s.latestReplicas k ≠ st.s.latestReplicas k →
      ∃ it ∈ rj, it.job.key = k ∧ it.job.priority ≤ jP := by
  intro fuel
  induction fuel with
  | zero =>
    intro idx st st' _ heq k hmod
    simp [commitLoop] at heq
  | succ n ih =>
    intro idx st st' hidx heq k hmod
    rw [commitLoop.eq_def] at heq
    dsimp only at heq
    by_cases h0 : st.need = 0
    · rw [if_pos h0] at heq
      cases heq
      exact absurd rfl hmod
    · rw [if_neg h0] at heq
      cases idx with
      | zero =>
        cases heq
        exact absurd rfl hmod
      | succ m =>
        dsimp only at heq
        have hm : m < rj.length := Nat.lt_of_succ_le hidx
        have hmle : m ≤ rj.length := Nat.le_of_lt hm
        by_cases hp : (rj.getD m default).job.priority > jP
        · rw [if_pos hp] at heq
          cases heq
          exact absurd rfl hmod
        · rw [if_neg hp] at heq
          by_cases hs : st.s.jobStatus (rj.getD m default).job.key ≠ some .running
          · rw [if_pos hs] at heq
            exact ih (m + 1) st st' hidx heq k hmod
          · rw [if_neg hs] at heq
            by_cases hpods : pods (rj.getD m default).job.key > (rj.getD m default).job.minReplicas
            · rw [if_pos hpods] at heq
              by_cases hok : rescaleOk (rj.getD m default).job.key
              · rw [if_pos hok] at heq
                by_cases hk : k = (rj.getD m default).job.key
                · refine ⟨rj.getD m default, ?_, hk.symm, not_lt.mp hp⟩
                  have := List.getD_eq_getElem rj default hm
                  rw [this]
                  exact List.getElem_mem hm
                · refine ih m _ st' hmle heq k ?_
                  intro hEq
                  apply hmod
                  rw [hEq]
                  exact setk_other _ _ _ _ hk
              · rw [if_neg hok] at heq
                exact ih m st st' hmle heq k hmod
            · rw [if_neg hpods] at heq
              exact ih m st st' hmle heq k hmod

theorem calc_shrinks_only_le (rescaleOk : Key → Bool) (pods : Key → Int) (fuel : Nat)
    (s : CtrlState) (j : MPIJob) (s' : CtrlState) (r : CalcResult) (k : Key)
    (hcalc : calculateWorkerReplicas rescaleOk pods fuel s j = some (s', r))
    (hmod : s'.latestReplicas k ≠ s.latestReplicas k) :
    ∃ it ∈ s.runningJobs, it.job.key = k ∧ it.job.priority ≤ j.priority := by
  unfold calculateWorkerReplicas at hcalc
  dsimp only at hcalc
  by_cases hrep : min (s.freeSlots - 1) j.maxReplicas < j.minReplicas
  · rw [if_pos hrep] at hcalc
    by_cases hdry : dryRunLoop pods j.priority s.runningJobs s.runningJobs.length
        (j.minReplicas - s.freeSlots + 1) > 0
    · rw [if_pos hdry] at hcalc
      cases hcalc
      exact absurd rfl hmod
    · rw [if_neg hdry] at hcalc
      cases hcl : commitLoop rescaleOk pods j.priority s.runningJobs fuel
          s.runningJobs.length ⟨s, j.minReplicas - s.freeSlots + 1⟩ with
      | none =>
        rw [hcl] at hcalc
        exact absurd hcalc (by simp)
      | some st =>
        rw [hcl] at hcalc
        dsimp only at hcalc
        have hss : s'.latestReplicas k ≠
            (⟨s, j.minReplicas - s.freeSlots + 1⟩ : CommitSt).s.latestReplicas k := hmod
        by_cases hng : st.need > 0
        · rw [if_pos hng] at hcalc
          cases hcalc
          exact commitLoop_shrinks_only_le rescaleOk pods j.priority s.runningJobs fuel
            s.runningJobs.length _ st (le_refl _) hcl k hss
        · rw [if_neg hng] at hcalc
          cases hcalc
          exact commitLoop_shrinks_only_le rescaleOk pods j.priority s.runningJobs fuel
            s.runningJobs.length _ st (le_refl _) hcl k hss
  · rw [if_neg hrep] at hcalc
    cases hcalc
    exact absurd rfl hmod

/-- C1 amended: the orientation is INVERTED with respect to the claim.  In
both the dry-run and the commit pass the scan over `runningJobs` (walked from
the back, i.e. from the highest priority value) stops at the first `R` with
`R.priority > J.priority`; consequently only running jobs with
`R.priority ≤ J.priority` are ever shrunk, and a job with priority value
strictly greater than `J`'s is never shrunk. -/
theorem preempt_scan_orientation :
    (∀ (pods : Key → Int) (jP : Int) (rj : List Item) (idx : Nat) (need : Int),
      need ≠ 0 → (rj.getD idx default).job.priority > jP →
      dryRunLoop pods jP rj (idx + 1) need = need) ∧
    (∀ (rescaleOk : Key → Bool) (pods : Key → Int) (jP : Int) (rj : List Item)
      (fuel idx : Nat) (st : CommitSt),
      st.need ≠ 0 → (rj.getD idx default).job.priority > jP →
      commitLoop rescaleOk pods jP rj (fuel + 1) (idx + 1) st = some st) ∧
    (∀ (rescaleOk : Key → Bool) (pods : Key → Int) (fuel : Nat) (s : CtrlState)
      (j : MPIJob) (s' : CtrlState) (r : CalcResult) (k : Key),
      calculateWorkerReplicas rescaleOk pods fuel s j = some (s', r) →
      s'.latestReplicas k ≠ s.latestReplicas k →
      ∃ it ∈ s.runningJobs, it.job.key = k ∧ it.job.priority ≤ j.priority) := by
  refine ⟨?_, ?_, ?_⟩
  · intro pods jP rj idx need hneed hp
    rw [dryRunLoop]
    simp only [List.getD_eq_getElem?_getD] at hp
    simp [hneed, hp]
  · intro rescaleOk pods jP rj fuel idx st hneed hp
    rw [commitLoop]
    simp only [List.getD_eq_getElem?_getD] at hp
    simp [hneed, hp]
  · exact fun rOk pods fuel s j s' r k => calc_shrinks_only_le rOk pods fuel s j s' r k

/-- The C1 admission result, extracted for the witness. -/
def c1result : CtrlState × CalcResult :=
  (calculateWorkerReplicas (fun _ => true) c1pods 10 c1state c1job).getD
    (c1state, .queuedErr)

/-- Witness for C1's amended statement: the dry-run and commit passes stop at
a head of priority 3 > 0, and the only `latestReplicas` entry the concrete C1
admission modifies belongs to a running job of priority ≤ 5. -/
theorem preempt_scan_orientation_witness :
    ((5 : Int) ≠ 0 ∧ (([⟨c1victim, 3⟩] : List Item).getD 0 default).job.priority > 0) ∧
    dryRunLoop c1pods 0 [⟨c1victim, 3⟩] (0 + 1) 5 = 5 ∧
    commitLoop (fun _ => true) c1pods 0 [⟨c1victim, 3⟩] (2 + 1) (0 + 1) ⟨c1state, 5⟩
      = some ⟨c1state, 5⟩ ∧
    (∃ it ∈ c1state.runningJobs, it.job.key = 10 ∧ it.job.priority ≤ c1job.priority) :=
  ⟨⟨by decide, by decide⟩,
    preempt_scan_orientation.1 c1pods 0 [⟨c1victim, 3⟩] 0 5 (by decide) (by decide),
    preempt_scan_orientation.2.1 (fun _ => true) c1pods 0 [⟨c1victim, 3⟩] 2 0
      ⟨c1state, 5⟩ (by decide) (by decide),
    preempt_scan_orientation.2.2 (fun _ => true) c1pods 10 c1state c1job
      c1result.1 c1result.2 10 (by rfl) (by decide)⟩

/-! ## Claim C2: what the rebalance budget is charged per expansion -/

/-- Projection: the `bumped` record of a rebalance step. -/
def rebalanceBump : RebalanceOut → Option (Key × Int)
  | .next _ b => b
  | _ => none

/-- Projection: the remaining budget after a rebalance step. -/
def rebalanceBudget : RebalanceOut → Option Int
  | .next st _ => some st.numFreeWorkers
  | .halt st => some st.numFreeWorkers
  | .stuck => none

/-- Pod counts for the C2 state: the running job has 2 running pods. -/
def c2pods : Key → Int := fun k => if k = 10 then 2 else 0

/-- Controller state for C2: one running job (key 10, `MaxReplicas = 8`)
currently at `latestReplicas = 2` with 2 pods. -/
def c2state : CtrlState :=
  { latestReplicas := setk (fun _ => none) 10 (some 2)
    configMaps := fun _ => none
    jobStatus := setk (fun _ => none) 10 (some .running)
    deferredAction := fun _ => none
    oldExpandReplicas := fun _ => none
    runningJobs := [⟨c1victim, 3⟩]
    queuedJobs := []
    freeSlots := 0
    workQueue := [] }

/-- C2 counterexample: with a budget of 3 free slots, expanding the running
job from `latestReplicas = 2` to `min(8, 2+3) = 5` charges the budget the
ENTIRE new count 5 (leaving `-2`), not the 3 workers actually added — the
claim says the budget drops by exactly `new - previous = 3` (to `0`). -/
theorem rebalance_budget_delta_cex :
    rebalanceBump (rebalanceStep c2pods ⟨c2state, 0, 0, 3⟩) = some (10, 5) ∧
    rebalanceBudget (rebalanceStep c2pods ⟨c2state, 0, 0, 3⟩) = some (-2) ∧
    c2state.latestReplicas 10 = some 2 ∧
    ((3 : Int) - (5 - 2) = 0) ∧ ((-2 : Int) ≠ 0) := by
  refine ⟨by decide, by decide, by decide, by decide, by decide⟩

/-- C2 amended: each rebalance step that expands a chosen job reduces the
remaining free-slot budget by the job's ENTIRE new `latestReplicas` value
(the full count written at line 873, charged at line 879), not by the number
of workers added. -/
theorem rebalance_budget_full_count (pods : Key → Int) (st : RebalanceSt) :
    (match rebalanceStep pods st with
    | .next st' (some (k, v)) =>
      st'.numFreeWorkers = st.numFreeWorkers - v ∧ st'.s.latestReplicas k = some v
    | _ => True) := by
  unfold rebalanceStep
  dsimp only
  by_cases h1 : st.numFreeWorkers = 0 ∨
      (st.idxRunning = st.s.runningJobs.length ∧ st.idxQueued = st.s.queuedJobs.length)
  · rw [if_pos h1]
    exact trivial
  · rw [if_neg h1]
    by_cases h2 : headPriority st.s.runningJobs st.idxRunning <
        headPriority st.s.queuedJobs st.idxQueued
    · rw [if_pos h2]
      cases hq : st.s.queuedJobs[st.idxQueued]? with
      | none => exact trivial
      | some it =>
        dsimp only
        by_cases h3 : pods it.job.key < it.job.maxReplicas
        · rw [if_pos h3]
          by_cases h4 : min it.job.maxReplicas
              ((st.s.latestReplicas it.job.key).getD 0 + st.numFreeWorkers) <
              it.job.minReplicas
          · rw [if_pos h4]
            exact trivial
          · rw [if_neg h4]
            exact ⟨rfl, setk_same _ _ _⟩
        · rw [if_neg h3]
          exact trivial
    · rw [if_neg h2]
      cases hr : st.s.runningJobs[st.idxRunning]? with
      | none => exact trivial
      | some it =>
        dsimp only
        by_cases h3 : pods it.job.key < it.job.maxReplicas
        · rw [if_pos h3]
          by_cases h4 : min it.job.maxReplicas
              ((st.s.latestReplicas it.job.key).getD 0 + st.numFreeWorkers) <
              it.job.minReplicas
          · rw [if_pos h4]
            exact trivial
          · rw [if_neg h4]
            exact ⟨rfl, setk_same _ _ _⟩
        · rw [if_neg h3]
          exact trivial

/-! ## Claims C6 and C7: completion cleanup -/

instance : Inhabited World := ⟨initWorld⟩

/-- The controller-state fields the expansion loop never writes. -/
def rebalancePreserved (a b : CtrlState) : Prop :=
  a.jobStatus = b.jobStatus ∧ a.configMaps = b.configMaps ∧
  a.deferredAction = b.deferredAction ∧ a.runningJobs = b.runningJobs ∧
  a.queuedJobs = b.queuedJobs ∧ a.freeSlots = b.freeSlots

theorem rebalanceStep_preserves (pods : Key → Int) (st : RebalanceSt) :
    (match rebalanceStep pods st with
    | .next st' _ =>
        rebalancePreserved st'.s st.s ∧ st'.s.latestReplicas = st.s.latestReplicas ∨
        (∃ it : Item, (it ∈ st.s.runningJobs ∨ it ∈ st.s.queuedJobs) ∧
          ∃ v, st'.s.latestReplicas = setk st.s.latestReplicas it.job.key (some v)) ∧
        rebalancePreserved st'.s st.s
    | .halt st' => st' = st
    | .stuck => True) := by
  unfold rebalanceStep
  dsimp only
  by_cases h1 : st.numFreeWorkers = 0 ∨
      (st.idxRunning = st.s.runningJobs.length ∧ st.idxQueued = st.s.queuedJobs.length)
  · rw [if_pos h1]
  · rw [if_neg h1]
    by_cases h2 : headPriority st.s.runningJobs st.idxRunning <
        headPriority st.s.queuedJobs st.idxQueued
    · rw [if_pos h2]
      cases hq : st.s.queuedJobs[st.idxQueued]? with
      | none => exact trivial
      | some it =>
        dsimp only
        have hmem : it ∈ st.s.queuedJobs := List.getElem?_mem hq
        by_cases h3 : pods it.job.key < it.job.maxReplicas
        · rw [if_pos h3]
          by_cases h4 : min it.job.maxReplicas
              ((st.s.latestReplicas it.job.key).getD 0 + st.numFreeWorkers) <
              it.job.minReplicas
          · rw [if_pos h4]
            exact Or.inr ⟨⟨it, Or.inr hmem, _, rfl⟩, rfl, rfl, rfl, rfl, rfl, rfl⟩
          · rw [if_neg h4]
            exact Or.inr ⟨⟨it, Or.inr hmem, _, rfl⟩, rfl, rfl, rfl, rfl, rfl, rfl⟩
        · rw [if_neg h3]
          exact Or.inl ⟨⟨rfl, rfl, rfl, rfl, rfl, rfl⟩, rfl⟩
    · rw [if_neg h2]
      cases hr : st.s.runningJobs[st.idxRunning]? with
      | none => exact trivial
      | some it =>
        dsimp only
        have hmem : it ∈ st.s.runningJobs := List.getElem?_mem hr
        by_cases h3 : pods it.job.key < it.job.maxReplicas
        · rw [if_pos h3]
          by_cases h4 : min it.job.maxReplicas
              ((st.s.latestReplicas it.job.key).getD 0 + st.numFreeWorkers) <
              it.job.minReplicas
          · rw [if_pos h4]
            exact Or.inr ⟨⟨it, Or.inl hmem, _, rfl⟩, rfl, rfl, rfl, rfl, rfl, rfl⟩
          · rw [if_neg h4]
            exact Or.inr ⟨⟨it, Or.inl hmem, _, rfl⟩, rfl, rfl, rfl, rfl, rfl, rfl⟩
        · rw [if_neg h3]
          exact Or.inl ⟨⟨rfl, rfl, rfl, rfl, rfl, rfl⟩, rfl⟩

theorem rebalanceLoop_preserves (pods : Key → Int) :
    ∀ (fuel : Nat) (st st' : RebalanceSt),
      rebalanceLoop pods fuel st = some st' →
      rebalancePreserved st'.s st.s := by
  intro fuel
  induction fuel with
  | zero =>
    intro st st' heq
    simp [rebalanceLoop] at heq
  | succ n ih =>
    intro st st' heq
    unfold rebalanceLoop at heq
    have hpres := rebalanceStep_preserves pods st
    cases hstep : rebalanceStep pods st with
    | halt st2 =>
      rw [hstep] at heq hpres
      dsimp only at heq hpres
      cases heq
      subst hpres
      exact ⟨rfl, rfl, rfl, rfl, rfl, rfl⟩
    | stuck =>
      rw [hstep] at heq
      dsimp only at heq
      cases heq
    | next st2 b =>
      rw [hstep] at heq hpres
      dsimp only at heq hpres
      have hp2 : rebalancePreserved st2.s st.s := by
        rcases hpres with ⟨hp, _⟩ | ⟨_, hp⟩ <;> exact hp
      obtain ⟨a1, a2, a3, a4, a5, a6⟩ := ih st2 st' heq
      obtain ⟨b1, b2, b3, b4, b5, b6⟩ := hp2
      exact ⟨a1.trans b1, a2.trans b2, a3.trans b3, a4.trans b4,
        a5.trans b5, a6.trans b6⟩

theorem rebalanceLoop_latest_other (pods : Key → Int) (k : Key) :
    ∀ (fuel : Nat) (st st' : RebalanceSt),
      (∀ it ∈ st.s.runningJobs, it.job.key ≠ k) →
      (∀ it ∈ st.s.queuedJobs, it.job.key ≠ k) →
      rebalanceLoop pods fuel st = some st' →
      st'.s.latestReplicas k = st.s.latestReplicas k := by
  intro fuel
  induction fuel with
  | zero =>
    intro st st' _ _ heq
    simp [rebalanceLoop] at heq
  | succ n ih =>
    intro st st' hrun hque heq
    unfold rebalanceLoop at heq
    have hpres := rebalanceStep_preserves pods st
    cases hstep : rebalanceStep pods st with
    | halt st2 =>
      rw [hstep] at heq hpres
      dsimp only at heq hpres
      cases heq
      subst hpres
      rfl
    | stuck =>
      rw [hstep] at heq
      dsimp only at heq
      cases heq
    | next st2 b =>
      rw [hstep] at heq hpres
      dsimp only at heq hpres
      have hl2 : st2.s.latestReplicas k = st.s.latestReplicas k := by
        rcases hpres with ⟨_, hl⟩ | ⟨⟨it, hmem, v, hl⟩, _⟩
        · rw [hl]
        · have hk : it.job.key ≠ k := by
            rcases hmem with hm | hm
            · exact hrun it hm
            · exact hque it hm
          rw [hl]
          exact setk_other _ _ _ _ (fun hkk => hk hkk.symm)
      have hp2 : rebalancePreserved st2.s st.s := by
        rcases hpres with ⟨hp, _⟩ | ⟨_, hp⟩ <;> exact hp
      obtain ⟨_, _, _, hrj, hqj, _⟩ := hp2
      have hrun2 : ∀ it ∈ st2.s.runningJobs, it.job.key ≠ k := by
        rw [hrj]; exact hrun
      have hque2 : ∀ it ∈ st2.s.queuedJobs, it.job.key ≠ k := by
        rw [hqj]; exact hque
      exact (ih st2 st' hrun2 hque2 heq).trans hl2

theorem removeWorker_fold_spec (k : Key) :
    ∀ (ixs : List Nat) (w : World), ixs.Nodup →
      (ixs.foldl (fun acc i => removeWorker acc k i) w).ctrl
        = { w.ctrl with freeSlots := w.ctrl.freeSlots
            + (((ixs.filter (fun i => i ∈ w.pods k)).length : Int)) } := by
  intro ixs
  induction ixs with
  | nil =>
    intro w _
    simp
  | cons i ixs ih =>
    intro w hnd
    have hnotin : i ∉ ixs := (List.nodup_cons.mp hnd).1
    have hnd2 : ixs.Nodup := (List.nodup_cons.mp hnd).2
    rw [List.foldl_cons]
    by_cases hi : i ∈ w.pods k
    · have hrw : removeWorker w k i =
          { w with
            pods := fun k' => if k' = k then (w.pods k).filter (fun j => j ≠ i) else w.pods k'
            ctrl := { w.ctrl with freeSlots := w.ctrl.freeSlots + 1 } } := by
        unfold removeWorker
        rw [if_pos hi]
      rw [hrw, ih _ hnd2]
      have hfc : ∀ x ∈ ixs,
          (decide (x ∈ (if k = k then (w.pods k).filter (fun j => j ≠ i) else w.pods k)))
            = decide (x ∈ w.pods k) := by
        intro x hx
        have hxne : x ≠ i := fun hxi => hnotin (hxi ▸ hx)
        simp [List.mem_filter, hxne]
      have hlen : ((ixs.filter (fun x =>
          x ∈ (if k = k then (w.pods k).filter (fun j => j ≠ i) else w.pods k))).length)
            = (ixs.filter (fun x => x ∈ w.pods k)).length := by
        rw [List.filter_congr hfc]
      have hcons : (((i :: ixs).filter (fun x => x ∈ w.pods k)).length)
          = (ixs.filter (fun x => x ∈ w.pods k)).length + 1 := by
        rw [List.filter_cons]
        simp [hi]
      congr 1
      dsimp only
      rw [hlen, hcons]
      push_cast
      ring
    · have hrw : removeWorker w k i = w := by
        unfold removeWorker
        rw [if_neg hi]
      rw [hrw, ih _ hnd2]
      have hcons : (((i :: ixs).filter (fun x => x ∈ w.pods k)).length)
          = (ixs.filter (fun x => x ∈ w.pods k)).length := by
        rw [List.filter_cons]
        simp [hi]
      rw [hcons]

theorem completionSync_status_none (fuel : Nat) (w : World) (j : MPIJob) (w' : World)
    (h : completionSync fuel w j = some w') :
    w'.ctrl.jobStatus j.key = none := by
  unfold completionSync at h
  by_cases h0 : w.ctrl.jobStatus j.key = none
  · rw [if_pos h0] at h
    cases h
    exact h0
  · rw [if_neg h0] at h
    dsimp only at h
    by_cases hp : isCleanUpPods j.cleanPodPolicy = true
    · rw [if_pos hp] at h
      split at h
      · exact absurd h (by simp)
      · next st heq =>
        cases h
        have hpres := rebalanceLoop_preserves _ fuel _ st heq
        show st.s.jobStatus j.key = none
        rw [hpres.1]
        show ((List.range j.maxReplicas.toNat).foldl
          (fun acc i => removeWorker acc j.key i) (completionDelete w j)).ctrl.jobStatus
            j.key = none
        rw [removeWorker_fold_spec j.key _ _ (List.nodup_range _)]
        show (completionDelete w j).ctrl.jobStatus j.key = none
        simp [completionDelete]
    · rw [if_neg hp] at h
      cases h
      show (completionDelete w j).ctrl.jobStatus j.key = none
      simp [completionDelete]

/-- C6: reconciling a CompletionTime-observing job `K` twice releases its
slots exactly once: after the first pass `K` is absent from `jobStatus`, and
the second pass returns the SAME world — it changes neither `freeSlots` nor
any controller map or queue. -/
theorem completion_reconcile_idempotent (rescaleOk : Key → Bool) (fuel : Nat)
    (w : World) (j : MPIJob) (w1 : World)
    (hres : sync rescaleOk fuel w j true = some w1) :
    w1.ctrl.jobStatus j.key = none ∧ sync rescaleOk fuel w1 j true = some w1 := by
  have h0 : completionSync fuel w j = some w1 := hres
  have h1 := completionSync_status_none fuel w j w1 h0
  refine ⟨h1, ?_⟩
  show completionSync fuel w1 j = some w1
  unfold completionSync
  rw [if_pos h1]

theorem pqRemoveByKey_no_key (pq : List Item) (k : Key) :
    ∀ it ∈ pqRemoveByKey pq k, it.job.key ≠ k := by
  intro it hit
  have := List.mem_filter.mp hit
  simpa using this.2

/-- C7 amended: on the first reconcile observing a finished job `K`,
completion cleanup removes `K` from `runningJobs` and deletes `K`'s entries
from `latestReplicas`, `jobStatus`, `configMaps` and `deferredAction`
regardless of the clean-pod policy; but slots are released ONLY when
`isCleanUpPods(policy)` holds — then `freeSlots` grows by one slot for the
launcher plus one per deleted worker pod (the pods with index below
`MaxReplicas`), and under policy `None` `freeSlots` is unchanged. -/
theorem completion_cleanup_policy_scoped (fuel : Nat) (w : World) (j : MPIJob) (w' : World)
    (hin : ¬ w.ctrl.jobStatus j.key = none)
    (hq : ∀ it ∈ w.ctrl.queuedJobs, it.job.key ≠ j.key)
    (hres : completionSync fuel w j = some w') :
    w'.ctrl.jobStatus j.key = none ∧
    w'.ctrl.latestReplicas j.key = none ∧
    w'.ctrl.configMaps j.key = none ∧
    w'.ctrl.deferredAction j.key = none ∧
    (∀ it ∈ w'.ctrl.runningJobs, it.job.key ≠ j.key) ∧
    w'.ctrl.freeSlots = (if isCleanUpPods j.cleanPodPolicy
      then w.ctrl.freeSlots + 1
        + ((((List.range j.maxReplicas.toNat).filter
            (fun i => i ∈ w.pods j.key)).length : Int))
      else w.ctrl.freeSlots) := by
  unfold completionSync at hres
  rw [if_neg hin] at hres
  dsimp only at hres
  by_cases hp : isCleanUpPods j.cleanPodPolicy = true
  · rw [if_pos hp] at hres
    split at hres
    · exact absurd hres (by simp)
    · next st heq =>
      cases hres
      have hW2 : (cleanUpWorkerPods (completionDelete w j) j).ctrl
          = { (completionDelete w j).ctrl with
              freeSlots := (completionDelete w j).ctrl.freeSlots
                + ((((List.range j.maxReplicas.toNat).filter
                    (fun i => i ∈ (completionDelete w j).pods j.key)).length : Int)) } :=
        removeWorker_fold_spec j.key _ _ (List.nodup_range _)
      have hrun3 : ∀ it ∈ (cleanUpWorkerPods (completionDelete w j) j).ctrl.runningJobs,
          it.job.key ≠ j.key := by
        rw [hW2]
        exact pqRemoveByKey_no_key _ _
      have hque3 : ∀ it ∈ (cleanUpWorkerPods (completionDelete w j) j).ctrl.queuedJobs,
          it.job.key ≠ j.key := by
        rw [hW2]
        exact hq
      have hpres := rebalanceLoop_preserves _ fuel _ st heq
      have hlat := rebalanceLoop_latest_other _ j.key fuel _ st hrun3 hque3 heq
      obtain ⟨e1, e2, e3, e4, e5, e6⟩ := hpres
      refine ⟨?_, ?_, ?_, ?_, ?_, ?_⟩
      · show st.s.jobStatus j.key = none
        rw [e1, hW2]
        show (completionDelete w j).ctrl.jobStatus j.key = none
        simp [completionDelete]
      · show st.s.latestReplicas j.key = none
        rw [hlat]
        show (cleanUpWorkerPods (completionDelete w j) j).ctrl.latestReplicas j.key = none
        rw [hW2]
        show (completionDelete w j).ctrl.latestReplicas j.key = none
        simp [completionDelete]
      · show st.s.configMaps j.key = none
        rw [e2, hW2]
        show (completionDelete w j).ctrl.configMaps j.key = none
        simp [completionDelete]
      · show st.s.deferredAction j.key = none
        rw [e3, hW2]
        show (completionDelete w j).ctrl.deferredAction j.key = none
        simp [completionDelete]
      · show ∀ it ∈ st.s.runningJobs, it.job.key ≠ j.key
        rw [e4]
        exact hrun3
      · rw [if_pos hp]
        show st.s.freeSlots = _
        rw [e6]
        have hfs : (cleanUpWorkerPods (completionDelete w j) j).ctrl.freeSlots
            = w.ctrl.freeSlots
              + ((((List.range j.maxReplicas.toNat).filter
                  (fun i => i ∈ w.pods j.key)).length : Int)) := by
          rw [hW2]
          rfl
        show (cleanUpWorkerPods (completionDelete w j) j).ctrl.freeSlots + 1 = _
        rw [hfs]
        ring
  · rw [if_neg hp] at hres
    cases hres
    rw [if_neg hp]
    refine ⟨?_, ?_, ?_, ?_, ?_, rfl⟩
    · show (completionDelete w j).ctrl.jobStatus j.key = none
      simp [completionDelete]
    · show (completionDelete w j).ctrl.latestReplicas j.key = none
      simp [completionDelete]
    · show (completionDelete w j).ctrl.configMaps j.key = none
      simp [completionDelete]
    · show (completionDelete w j).ctrl.deferredAction j.key = none
      simp [completionDelete]
    · exact pqRemoveByKey_no_key _ _

/-- The completed job used in the C6/C7 concrete states: key 5,
`MaxReplicas = 2`, clean-pod policy `All`. -/
def c7jobAll : MPIJob := ⟨5, 0, 1, 2, .all, false⟩

/-- The same job with clean-pod policy `None`. -/
def c7jobNone : MPIJob := ⟨5, 0, 1, 2, .nonePolicy, false⟩

/-- A world where job 5 is running with two worker pods and its launcher Job
has finished: the state on which the completion branch runs. -/
def c7world : World :=
  { ctrl :=
    { latestReplicas := setk (fun _ => none) 5 (some 2)
      configMaps := setk (fun _ => none) 5 (some (2, [0, 1]))
      jobStatus := setk (fun _ => none) 5 (some .running)
      deferredAction := setk (fun _ => none) 5 (some .noop)
      oldExpandReplicas := fun _ => none
      runningJobs := [⟨c7jobAll, 0⟩]
      queuedJobs := []
      freeSlots := 0
      workQueue := [] }
    pods := fun k => if k = 5 then [0, 1] else []
    launcher := fun k => if k = 5 then some ⟨true, true⟩ else none
    configMapData := setk (fun _ => none) 5 (some (2, [0, 1])) }

/-- C7 counterexample: with clean-pod policy `None`, the first completion pass
deletes job 5 from every map and from `runningJobs`, but `freeSlots` stays 0:
NO slot is released for the launcher (nor for the workers), refuting
"releases one slot into freeSlots for the launcher … regardless of the
configured clean-pod policy" (the release sits inside the `isCleanUpPods`
branch, lines 816-822). -/
theorem completion_launcher_slot_cex :
    ((completionSync 10 c7world c7jobNone).map
      (fun w => (w.ctrl.freeSlots, w.ctrl.jobStatus 5, w.ctrl.latestReplicas 5,
        w.ctrl.runningJobs.length))) = some (0, none, none, 0) ∧
    c7world.ctrl.freeSlots = 0 ∧
    isCleanUpPods c7jobNone.cleanPodPolicy = false ∧
    ((0 : Int) ≠ 0 + 1) := by
  refine ⟨by decide, by decide, by decide, by decide⟩

/-- The cleanup result on `c7world` under policy `All`, for the witnesses. -/
def c7res : World := (completionSync 10 c7world c7jobAll).getD default

/-- Witness for C7's amended statement on the concrete completed job 5. -/
theorem completion_cleanup_policy_scoped_witness :
    (¬ c7world.ctrl.jobStatus 5 = none) ∧
    (c7res.ctrl.jobStatus 5 = none ∧
     c7res.ctrl.latestReplicas 5 = none ∧
     c7res.ctrl.configMaps 5 = none ∧
     c7res.ctrl.deferredAction 5 = none ∧
     (∀ it ∈ c7res.ctrl.runningJobs, it.job.key ≠ 5) ∧
     c7res.ctrl.freeSlots = (if isCleanUpPods c7jobAll.cleanPodPolicy
       then c7world.ctrl.freeSlots + 1
         + ((((List.range c7jobAll.maxReplicas.toNat).filter
             (fun i => i ∈ c7world.pods 5)).length : Int))
       else c7world.ctrl.freeSlots)) :=
  ⟨by decide,
    completion_cleanup_policy_scoped 10 c7world c7jobAll c7res (by decide)
      (by simp [c7world]) rfl⟩

/-- The C6 first-pass result, for the witness. -/
def c6res : World := (sync (fun _ => true) 10 c7world c7jobAll true).getD default

/-- Witness for C6 at the concrete completed job 5 with policy `All`. -/
theorem completion_reconcile_idempotent_witness :
    sync (fun _ => true) 10 c7world c7jobAll true = some c6res ∧
    (c6res.ctrl.jobStatus 5 = none ∧
      sync (fun _ => true) 10 c6res c7jobAll true = some c6res) :=
  ⟨rfl, completion_reconcile_idempotent (fun _ => true) 10 c7world c7jobAll c6res rfl⟩

/-! ## Claim C8: is `freeSlots ≥ 0` an invariant? -/

/-- Jobs of the C8 trace: A and C fill the pool (MinReplicas = MaxReplicas
= 9), B is small (1 worker). -/
def c8jobA : MPIJob := ⟨0, 0, 9, 9, .all, false⟩

def c8jobB : MPIJob := ⟨1, 0, 1, 1, .all, false⟩

def c8jobC : MPIJob := ⟨2, 0, 9, 9, .all, false⟩

/-- A five-reconcile run from the initial state (pool 10):
A is admitted at 9 workers plus launcher (`freeSlots = 0`) and starts running;
B arrives and is queued (`latestReplicas[B] = -1`);
A completes — cleanup frees 10 slots and the rebalance promotes B
(`latestReplicas[B] := 1`), but B's pass has not run yet;
C is admitted meanwhile at 9 workers plus launcher (`freeSlots = 0`);
B's reconcile then takes the queued-promotion branch, whose launcher
reservation `freeSlots -= 1` (line 966) has no guard: `freeSlots = -1`. -/
def c8trace : Option World :=
  (sync (fun _ => true) 40 initWorld c8jobA false).bind fun w1 =>
  (sync (fun _ => true) 40 w1 c8jobB false).bind fun w2 =>
  (sync (fun _ => true) 40 w2 c8jobA true).bind fun w3 =>
  (sync (fun _ => true) 40 w3 c8jobC false).bind fun w4 =>
  sync (fun _ => true) 40 w4 c8jobB false

/-- C8 counterexample: the state after the five reconciles of `c8trace` is
reachable from the initial state, and its `freeSlots` is `-1 < 0`; the
queued-promotion launcher reservation is not guarded. -/
theorem freeSlots_negative_reachable_cex :
    initWorld.ctrl.freeSlots = 10 ∧
    c8trace.map (fun w => w.ctrl.freeSlots) = some (-1) := by
  refine ⟨by decide, by decide⟩

theorem filter_lt_range (latest : Int) :
    ∀ len : Nat, List.filter (fun i : Nat => decide ((i : Int) < latest)) (List.range len)
      = List.range (min latest.toNat len) := by
  intro len
  induction len with
  | zero => simp
  | succ n ih =>
    rw [List.range_succ, List.filter_append, ih]
    by_cases hn : (n : Int) < latest
    · have h2 : min latest.toNat n = n := by omega
      have h3 : min latest.toNat (n + 1) = n + 1 := by omega
      rw [h2, h3]
      simp [hn, List.range_succ]
    · have h2 : min latest.toNat n = min latest.toNat (n + 1) := by omega
      rw [h2]
      simp [hn]

theorem addWorkersUpTo_range (k : Key) (m : Nat) :
    ∀ (n : Nat) (w : World), w.pods k = List.range m →
      (addWorkersUpTo w k n).pods k = List.range (max n m) ∧
      (addWorkersUpTo w k n).ctrl = { w.ctrl with
        freeSlots := w.ctrl.freeSlots - ((n - m : Nat) : Int) } := by
  intro n
  induction n with
  | zero =>
    intro w hw
    constructor
    · simpa using hw
    · have e : ((0 - m : Nat) : Int) = 0 := by simp
      rw [e, sub_zero]
      rfl
  | succ n ih =>
    intro w hw
    obtain ⟨hp, hc⟩ := ih w hw
    show (addWorker (addWorkersUpTo w k n) k n).pods k = _ ∧
      (addWorker (addWorkersUpTo w k n) k n).ctrl = _
    unfold addWorker
    by_cases hm : n ∈ (addWorkersUpTo w k n).pods k
    · rw [if_pos hm]
      have hnm : n < m := by
        rw [hp] at hm
        have := List.mem_range.mp hm
        omega
      have e1 : max n m = m := by omega
      have e2 : max (n + 1) m = m := by omega
      have e3 : (n - m : Nat) = 0 := by omega
      have e4 : (n + 1 - m : Nat) = 0 := by omega
      rw [hp, hc, e1, e2, e3, e4]
      exact ⟨rfl, rfl⟩
    · rw [if_neg hm]
      have hnm : ¬ n < m := by
        intro hlt
        apply hm
        rw [hp]
        exact List.mem_range.mpr (by omega)
      constructor
      · show (if k = k then (addWorkersUpTo w k n).pods k ++ [n]
            else (addWorkersUpTo w k n).pods k) = _
        rw [if_pos rfl, hp]
        have e1 : max n m = n := by omega
        have e2 : max (n + 1) m = n + 1 := by omega
        rw [e1, e2]
        exact (List.range_succ n).symm
      · show { (addWorkersUpTo w k n).ctrl with
            freeSlots := (addWorkersUpTo w k n).ctrl.freeSlots - 1 } = _
        rw [hc]
        refine congrArg (fun x => { w.ctrl with freeSlots := x }) ?_
        show w.ctrl.freeSlots - ((n - m : Nat) : Int) - 1
          = w.ctrl.freeSlots - ((n + 1 - m : Nat) : Int)
        omega

theorem deleteExcessPods_pods (w : World) (k : Key) (latest : Int) :
    (deleteExcessPods w k latest).pods k
      = List.filter (fun i : Nat => decide ((i : Int) < latest)) (w.pods k) := by
  show (if k = k then List.filter (fun i : Nat => decide ((i : Int) < latest)) (w.pods k)
    else w.pods k) = _
  rw [if_pos rfl]

/-- C8 amended: the per-worker-pod creation decrement IS guarded —
`getOrCreateWorker` (guard at line 1546, creations via `addWorker`) cannot
drive `freeSlots` below zero when the job's pods are canonically indexed
`0 .. m-1` — but the launcher reservations (first sight and queued-promotion,
lines 963/966) are NOT re-checked against `freeSlots`, and a sequence of
reconciles from the initial state reaches `freeSlots = -1`
(see the counterexample trace). -/
theorem worker_creation_guarded (w : World) (k : Key) (m : Nat) (w' : World) (n : Nat)
    (hcanon : w.pods k = List.range m)
    (hfree : 0 ≤ w.ctrl.freeSlots)
    (hres : getOrCreateWorker w k = .ok w' n) :
    0 ≤ w'.ctrl.freeSlots := by
  have hlen : (w.pods k).length = m := by rw [hcanon]; simp
  unfold getOrCreateWorker at hres
  dsimp only at hres
  by_cases hg : (w.ctrl.latestReplicas k).getD 0 - ((w.pods k).length : Int)
      > w.ctrl.freeSlots
  · rw [if_pos hg] at hres
    exact WorkerRes.noConfusion hres
  · rw [if_neg hg] at hres
    by_cases hdel : ((w.pods k).length : Int) > (w.ctrl.latestReplicas k).getD 0
    · rw [if_pos hdel] at hres
      have hW1 : (deleteExcessPods w k ((w.ctrl.latestReplicas k).getD 0)).pods k
          = List.range (min ((w.ctrl.latestReplicas k).getD 0).toNat m) := by
        rw [deleteExcessPods_pods, hcanon]
        exact filter_lt_range _ m
      have hspec := addWorkersUpTo_range k
        (min ((w.ctrl.latestReplicas k).getD 0).toNat m)
        ((w.ctrl.latestReplicas k).getD 0).toNat
        (deleteExcessPods w k ((w.ctrl.latestReplicas k).getD 0)) hW1
      cases hres
      rw [hspec.2]
      show 0 ≤ w.ctrl.freeSlots
        - (((((w.ctrl.latestReplicas k).getD 0).toNat
          - min ((w.ctrl.latestReplicas k).getD 0).toNat m : Nat)) : Int)
      omega
    · rw [if_neg hdel] at hres
      have hspec := addWorkersUpTo_range k m ((w.ctrl.latestReplicas k).getD 0).toNat
        w hcanon
      cases hres
      rw [hspec.2]
      show 0 ≤ w.ctrl.freeSlots
        - ((((w.ctrl.latestReplicas k).getD 0).toNat - m : Nat) : Int)
      omega

/-- Projection: the world carried by a `getOrCreateWorker` outcome. -/
def workerResWorld : WorkerRes → World
  | .queuedErr w => w
  | .ok w _ => w

/-- A world for the C8 witness: job 3 has pods {0, 1}, `latestReplicas = 4`,
and 2 free slots — exactly enough for the creation delta. -/
def c8workerWorld : World :=
  { ctrl :=
    { latestReplicas := setk (fun _ => none) 3 (some 4)
      configMaps := fun _ => none
      jobStatus := fun _ => none
      deferredAction := fun _ => none
      oldExpandReplicas := fun _ => none
      runningJobs := []
      queuedJobs := []
      freeSlots := 2
      workQueue := [] }
    pods := fun k => if k = 3 then [0, 1] else []
    launcher := fun _ => none
    configMapData := fun _ => none }

/-- The worker-reconcile result on `c8workerWorld`, for the witness. -/
def c8workerRes : World := workerResWorld (getOrCreateWorker c8workerWorld 3)

/-- Witness for C8's amended statement: creating the two missing pods of job
3 consumes exactly the remaining free slots and `freeSlots` stays `≥ 0`. -/
theorem worker_creation_guarded_witness :
    c8workerWorld.pods 3 = List.range 2 ∧
    (0 : Int) ≤ c8workerWorld.ctrl.freeSlots ∧
    (0 : Int) ≤ c8workerRes.ctrl.freeSlots :=
  ⟨by decide, by decide,
    worker_creation_guarded c8workerWorld 3 2 c8workerRes 4 (by decide) (by decide) rfl⟩

end MpiOp
